import Mathlib

/-!
Verification development for the audit-log ingestion script
(`src/ingest_script/parcing.js`): a shallow embedding of its line parser,
session correlator, bounded output partitioner, v2 job loop, file queue
ordering, and watchdog, together with theorems settling the frozen claims.

Conventions of the embedding:
* JS arrays of strings become `List String`; the parsed table is a
  `List (List String)` whose first row is the header.
* JS numbers that hold row counts or indices become `Nat`; millisecond
  timestamps become `Int` (a JS `Date.getTime()` value).
* `Math.floor` of a quotient of possibly-negative integers is `Int.fdiv`.
* Host-provided behaviours (the JS regular-expression matchers, `Date`
  parsing and ISO formatting, and the user-identity splitter) are collected
  in a `Host` structure and passed as parameters; every claim quantifies
  over row classifications, never over the regex internals.
* The JS per-key object of arrays (`startsByKey`) becomes an association
  list; `Array.prototype.push`/`pop` act at the tail of a JS array, which we
  encode as the head of the Lean list (the same LIFO discipline).
-/

namespace Parcing

/-! ## Configuration constants (CONFIG & CONSTANTS section of the source) -/

def AUTO_SPLIT_CHUNK_ROWS : Nat := 100000

def WRITE_CHUNK_ROWS : Nat := 10000

def MAX_WRITE_ROWS_PER_RUN : Nat := 300000

def SHEET_CELL_LIMIT : Nat := 10000000

def BETWEEN_PARTS_DELAY_MIN : Nat := 1

def BETWEEN_FILES_DELAY_MIN : Nat := 2

/-! ## JS string primitives

The JS string methods used by the parser (`trim`, `split`, `toLowerCase`,
`endsWith`-style suffix tests) are embedded as character-list recursions so
that every definition evaluates by kernel reduction. -/

/-- JS `String.prototype.trim`: strips whitespace from both ends. -/
def jsTrim (s : String) : String :=
  String.mk (((s.data.dropWhile Char.isWhitespace).reverse.dropWhile Char.isWhitespace).reverse)

/-- Worker for `jsSplitOnChar` and `wsTokens`: splits at every character
satisfying `p`, keeping empty fields (JS `String.prototype.split`). -/
def splitCharsAux (p : Char → Bool) : List Char → String → List String
  | [], cur => [cur]
  | c :: rest, cur =>
    if p c then cur :: splitCharsAux p rest "" else splitCharsAux p rest (cur.push c)

/-- JS `s.split(sep)` for a single-character separator. -/
def jsSplitOnChar (sep : Char) (s : String) : List String :=
  splitCharsAux (fun c => c = sep) s.data ""

/-- The whitespace-token list of `s.trim().split(/\s+/)`: splitting a
trimmed string at whitespace runs, i.e. the non-empty fields of a
character-level split. -/
def wsTokens (s : String) : List String :=
  (splitCharsAux Char.isWhitespace (jsTrim s).data "").filter (fun t => t ≠ "")

/-- JS `String.prototype.toLowerCase` (ASCII model). -/
def toLowerStr (s : String) : String :=
  String.mk (s.data.map Char.toLower)

/-! ## Quote-aware splitting (`splitPipesQuoted`) -/

/-- Character-by-character worker for `splitPipesQuoted`: `cur` is the field
being accumulated, `inQ` the in-quotes flag.  Mirrors the JS loop: a `"`
inside quotes followed by another `"` emits a literal quote and skips it,
otherwise a `"` toggles the flag; a `|` outside quotes closes the field. -/
def splitPipesQuotedAux : List Char → String → Bool → List String
  | [], cur, _ => [cur]
  | '"' :: '"' :: rest2, cur, true => splitPipesQuotedAux rest2 (cur.push '"') true
  | '"' :: rest, cur, true => splitPipesQuotedAux rest cur false
  | '"' :: rest, cur, false => splitPipesQuotedAux rest cur true
  | '|' :: rest, cur, inQ =>
    if inQ then splitPipesQuotedAux rest (cur.push '|') inQ
    else cur :: splitPipesQuotedAux rest "" inQ
  | c :: rest, cur, inQ => splitPipesQuotedAux rest (cur.push c) inQ

/-- Splits a pipe-delimited line with CSV-like quotes and doubled-quote
escaping (JS `splitPipesQuoted`). -/
def splitPipesQuoted (line : String) : List String :=
  splitPipesQuotedAux line.data "" false

/-! ## Arity-9 coercion (`tryToNine_`) -/

/-- Result record of `tryToNine_` (the JS object `{ok, cols, reason}`;
a missing `cols` on the failure path is rendered as `[]`). -/
structure NineResult where
  ok : Bool
  cols : List String
  reason : String
deriving DecidableEq, Repr

/-- Coerces a row to exactly 9 fields (JS `tryToNine_`).  More than 9
fields with at least 10 cells merges `cells.slice(3, length - 5)` back into
the message field with `'|'`; fewer than 9 pads with empty strings (the JS
`while (padded.length < 9) padded.push('')` loop). -/
def tryToNine_ (cells : List String) : NineResult :=
  if cells.length = 9 then ⟨true, cells, ""⟩
  else if 9 < cells.length then
    if 10 ≤ cells.length then
      let head := cells.take 3
      let msg := String.intercalate "|" ((cells.drop 3).take (cells.length - 8))
      let tail := cells.drop (cells.length - 5)
      ⟨true, head ++ [msg] ++ tail, "COERCED"⟩
    else ⟨false, [], "TOO_MANY_FIELDS"⟩
  else ⟨true, cells ++ List.replicate (9 - cells.length) "", "PADDED"⟩

/-! ## Host-provided behaviours

The regular-expression matchers (`isStart_`, `isEnd_`, `isAutoCheckIn_`,
`extractRecipeId_`, `extractMaterialName_`, `extractMaterialId_`,
`splitUser_`) and the JS `Date` functions (`safeParseTs_`,
`Date.prototype.toISOString`) are behaviours of the JS host.  They are
modelled as parameters: every claim quantifies over the classification of a
row (start / end / auto-end), the correlation key and the parsed timestamp,
never over the regex internals. -/

/-- Identity split produced by `splitUser_`:
`"First Last (handle)"` into first name, last name and handle. -/
structure UserParts where
  name1 : String
  name2 : String
  username : String
deriving DecidableEq, Repr

/-- Bundle of host (regex / `Date`) behaviours used by the parser.
`parseTs` returns milliseconds since the epoch (`Date.getTime()`), `toIso`
renders a millisecond timestamp (`Date.prototype.toISOString`). -/
structure Host where
  parseTs : String → Option Int
  toIso : Int → String
  isStart : String → Bool
  isEnd : String → Bool
  isAutoEnd : String → Bool
  extractRecipeId : String → String
  extractMaterialName : String → String
  extractMaterialId : String → String
  splitUser : String → UserParts

/-! ## Parser helpers embedded directly -/

/-- Builds the session key (`makeKey_`): the JS `username || userIdRaw` and
`recipeId || recipeName || ''` with `'' `falsy, joined by `'|'`. -/
def makeKey_ (username userIdRaw recipeId recipeName : String) : String :=
  let who := if username = "" then userIdRaw else username
  let what := if recipeId = "" then (if recipeName = "" then "" else recipeName) else recipeId
  who ++ "|" ++ what

/-- Replaces each maximal whitespace run with a single `'_'`
(the JS `.replace(/\s+/g, '_')`). -/
def collapseWsAux : List Char → Bool → List Char
  | [], _ => []
  | c :: rest, prevWs =>
    if c.isWhitespace then
      if prevWs then collapseWsAux rest true else '_' :: collapseWsAux rest true
    else c :: collapseWsAux rest false

/-- JS `\w` word character: ASCII letter, digit or underscore. -/
def isWordChar (c : Char) : Bool := c.isAlphanum || c = '_'

/-- Header-name normalisation from `parseLinesToTable`:
`.replace(/\s+/g, '_').replace(/[^\w]/g, '').toLowerCase()`. -/
def normalizeHeaderName (s : String) : String :=
  String.mk (((collapseWsAux s.data false).filter isWordChar).map Char.toLower)

/-- The 11 derived column names appended to the header. -/
def derivedHeaderNames : List String :=
  ["recipe_id", "recipe_name", "material_name", "material_id",
   "name1", "name2", "username", "action",
   "session_start", "session_end", "session_duration"]

/-- Short-action summary: first four whitespace-delimited tokens of the
message (`message.trim().split(/\s+/).slice(0, 4).join(' ')`, with the JS
falsy guard on an empty message). -/
def shortActionOf (message : String) : String :=
  if message = "" then ""
  else String.intercalate " " ((wsTokens message).take 4)

/-! ## Session data model -/

/-- One open session window pushed in pass 1: table row reference plus the
parsed start timestamp (`null` when unparseable). -/
structure Window where
  rowIndex : Nat
  startTs : Option Int
deriving DecidableEq, Repr

/-- Per-row classification record built in pass 1 (the JS `rowMeta` entry). -/
structure Meta where
  key : String
  isStart : Bool
  isEnd : Bool
  isAutoEnd : Bool
  ts : Option Int
  outIndex : Nat
deriving DecidableEq, Repr

/-- A rejected row recorded to the bad-line sink:
source file, 1-based line number, raw text and reason. -/
structure BadLine where
  file : String
  lineNo : Nat
  raw : String
  reason : String
deriving DecidableEq, Repr

/-- The JS `startsByKey` object: key-indexed LIFO lists of open windows,
modelled as an insertion-ordered association list. -/
abbrev Stacks := List (String × List Window)

/-- Object property read `startsByKey[key]`, `[]` when absent. -/
def stacksGet : Stacks → String → List Window
  | [], _ => []
  | (k', l) :: rest, k => if k' = k then l else stacksGet rest k

/-- Object property write `startsByKey[key] = l`. -/
def stacksSet : Stacks → String → List Window → Stacks
  | [], k, l => [(k, l)]
  | (k', l') :: rest, k, l =>
    if k' = k then (k', l) :: rest else (k', l') :: stacksSet rest k l

/-! ## Pass 1: normalisation, enrichment, window pushes -/

/-- The enrichment of a normalised 9-field row (`parseLinesToTable`,
pass 1): appends the 11 derived fields, the last three (session columns)
initially empty. -/
def enrichedRow (host : Host) (cols : List String) : List String :=
  let userIdRaw := cols.getD 0 ""
  let message := cols.getD 3 ""
  let typeVal := cols.getD 6 ""
  let labelVal := cols.getD 7 ""
  let rid := jsTrim ((jsSplitOnChar '|' (host.extractRecipeId message)).headD "")
  let rname := if toLowerStr typeVal = "recipe" then labelVal else ""
  let u := host.splitUser userIdRaw
  cols ++ [rid, rname, host.extractMaterialName message, host.extractMaterialId message,
           u.name1, u.name2, u.username, shortActionOf message, "", "", ""]

/-- The classification record for a normalised row (`parseLinesToTable`,
pass 1): key, start/end/auto-end flags, parsed timestamp, row reference. -/
def metaOf (host : Host) (cols : List String) (outIndex : Nat) : Meta :=
  let userIdRaw := cols.getD 0 ""
  let message := cols.getD 3 ""
  let typeVal := cols.getD 6 ""
  let labelVal := cols.getD 7 ""
  let rid := jsTrim ((jsSplitOnChar '|' (host.extractRecipeId message)).headD "")
  let rname := if toLowerStr typeVal = "recipe" then labelVal else ""
  let u := host.splitUser userIdRaw
  ⟨makeKey_ u.username userIdRaw rid rname,
   host.isStart message, host.isEnd message, host.isAutoEnd message,
   host.parseTs (cols.getD 4 ""), outIndex⟩

/-- Accumulator of pass 1: the output table (header first), the `rowMeta`
list, the `startsByKey` association list, and the bad-line sink contents. -/
structure P1Acc where
  out : List (List String)
  metas : List Meta
  st : Stacks
  bads : List BadLine
deriving Repr

/-- One iteration of the pass-1 loop of `parseLinesToTable` for the line at
(0-based) index `il.1` with text `il.2`: skip empty lines, split and coerce
to 9 fields, record a bad line on failure, otherwise append the enriched
row, record its meta, on a start write `session_start` (header length − 3)
when the timestamp parsed and push the window onto the key's stack. -/
def pass1Step (host : Host) (fileName : String) (hdrLen : Nat)
    (acc : P1Acc) (il : Nat × String) : P1Acc :=
  if il.2 = "" then acc else
  let norm := tryToNine_ ((splitPipesQuoted il.2).map jsTrim)
  if norm.ok = false then
    { acc with bads := acc.bads ++ [⟨fileName, il.1 + 1, il.2, norm.reason⟩] }
  else
    let cols := norm.cols
    let outIndex := acc.out.length
    let meta := metaOf host cols outIndex
    let out1 := acc.out ++ [enrichedRow host cols]
    let out2 :=
      if meta.isStart then
        match meta.ts with
        | some t => out1.set outIndex ((out1.getD outIndex []).set (hdrLen - 3) (host.toIso t))
        | none => out1
      else out1
    let stacks1 :=
      if meta.isStart then
        stacksSet acc.st meta.key (⟨outIndex, meta.ts⟩ :: stacksGet acc.st meta.key)
      else acc.st
    ⟨out2, acc.metas ++ [meta], stacks1, acc.bads⟩

/-! ## Pass 2: session closing and duration capping -/

/-- Raw duration in whole seconds:
`Math.max(0, Math.floor((end - start) / 1000))`, with the end timestamp
standing in for an unparseable start. -/
def rawSeconds (startTs : Option Int) (endMs : Int) : Int :=
  max 0 ((endMs - startTs.getD endMs).fdiv 1000)

/-- Duration capping policy of pass 2: auto-end caps at 8 h = 28800 s;
otherwise a raw duration above 28000 s becomes 28000 s per elapsed day
(`Math.floor(rawSec / 86400)` days, 0 or 1 day giving one unit). -/
def durationSec (isAutoEnd : Bool) (rawSec : Int) : Int :=
  if isAutoEnd then
    if rawSec < 28800 then rawSec else 28800
  else if 28000 < rawSec then
    let days := rawSec.fdiv 86400
    if days ≤ 1 then 28000 else days * 28000
  else rawSec

/-- Cell lookup in the table: `none` when row or column is out of range. -/
def cellAt (table : List (List String)) (r c : Nat) : Option String :=
  table[r]?.bind (fun row => row[c]?)

/-- One iteration of the pass-2 loop of `parseLinesToTable`: an
end-classified row with a parseable timestamp pops the most recent open
window for its key (if any) and writes `session_end` (column `colEnd`) and
`session_duration` (column `colDur`) onto the popped start row. -/
def pass2Step (host : Host) (colEnd colDur : Nat)
    (acc : List (List String) × Stacks) (meta : Meta) : List (List String) × Stacks :=
  if meta.isEnd = false then acc else
  match meta.ts with
  | none => acc
  | some endMs =>
    match stacksGet acc.2 meta.key with
    | [] => acc
    | w :: rest =>
      let dur := durationSec meta.isAutoEnd (rawSeconds w.startTs endMs)
      let row := acc.1.getD w.rowIndex []
      let row' := (row.set colEnd (host.toIso endMs)).set colDur (toString dur)
      (acc.1.set w.rowIndex row', stacksSet acc.2 meta.key rest)

/-- Converts raw lines to the normalised table with derived fields and
session metadata (`parseLinesToTable`).  Returns the table (header first)
and the bad-line records appended to the sink. -/
def parseLinesToTable (host : Host) (lines : List String) (fileName : String) :
    List (List String) × List BadLine :=
  let rawHeader := (jsSplitOnChar '|' (lines.headD "")).map jsTrim
  let header := rawHeader.map normalizeHeaderName ++ derivedHeaderNames
  let p1 := ((lines.drop 1).enumFrom 1).foldl (pass1Step host fileName header.length)
    ⟨[header], [], [], []⟩
  let res := p1.metas.foldl (pass2Step host (header.length - 2) (header.length - 1))
    (p1.out, p1.st)
  (res.1, p1.bads)


/-! ## v2 streaming processor (`processJobStreamingV2_`)

The Drive folder of XLSX parts is modelled as an association list from file
name to written content; `SpreadsheetApp` writes inside one part are
modelled by the part content itself (the sub-chunking in
`WRITE_CHUNK_ROWS` blocks concatenates to exactly the slice
`table.slice(1 + dataCursor, 1 + dataCursor + partDataRows)` under the
header row). -/

/-- Persisted v2 job state (`JOB_KEY_V2`): source file name, output base
name, total table rows/columns (0 = not yet known, the JS falsy check),
data cursor and next part index. -/
structure JobV2 where
  fileName : String
  outputBase : String
  totalRows : Nat
  totalCols : Nat
  dataCursor : Nat
  partIndex : Nat
deriving DecidableEq, Repr

/-- Output folder contents: XLSX part name paired with written rows. -/
abbrev Files := List (String × List (List String))

/-- `outFolder.getFilesByName(name).hasNext()`. -/
def hasFile (fs : Files) (name : String) : Bool :=
  fs.any (fun e => e.1 = name)

/-- JS `String(n).padStart(2, '0')`. -/
def padStart2 (s : String) : String :=
  if s.length = 0 then "00" else if s.length = 1 then "0" ++ s else s

/-- Name of the XLSX artifact for part `idx`:
`outputBase + '__part' + String(idx).padStart(2, '0') + '.xlsx'`. -/
def partName (base : String) (idx : Nat) : String :=
  base ++ "__part" ++ padStart2 (toString idx) ++ ".xlsx"

/-- Sink-capacity cap on data rows per part:
`Math.max(1, Math.floor(SHEET_CELL_LIMIT / totalCols) - 1)`. -/
def dataRowsCellCap (totalCols : Nat) : Nat :=
  max 1 (SHEET_CELL_LIMIT / totalCols - 1)

/-- Rows chosen for the next part:
`Math.min(dataLeft, remainingThisRun, dataRowsAllowedByPolicy,
dataRowsAllowedByCellCap)` with `dataLeft = totalDataRows - dataCursor`. -/
def partRows (job : JobV2) (remaining : Nat) : Nat :=
  min (min (min (job.totalRows - 1 - job.dataCursor) remaining) AUTO_SPLIT_CHUNK_ROWS)
    (dataRowsCellCap job.totalCols)

/-- One iteration of the v2 part loop: compute the part size, then either
skip the part when its XLSX already exists (idempotent guard: cursor and
part index advance, nothing is written) or write the part (header plus the
table slice) and advance identically.  Returns the folder contents, the
saved job, and the remaining per-invocation row budget. -/
def v2Body (table : List (List String)) (fs : Files) (job : JobV2) (remaining : Nat) :
    Files × JobV2 × Nat :=
  let n := partRows job remaining
  let nextJob : JobV2 :=
    { job with dataCursor := job.dataCursor + n, partIndex := job.partIndex + 1 }
  if hasFile fs (partName job.outputBase job.partIndex) then
    (fs, nextJob, remaining - n)
  else
    let content := table.headD [] :: ((table.drop (1 + job.dataCursor)).take n)
    (fs ++ [(partName job.outputBase job.partIndex, content)], nextJob, remaining - n)

/-- The `while (job.dataCursor < totalDataRows && remainingThisRun > 0)`
loop of `processJobStreamingV2_`. -/
def partLoop (table : List (List String)) (fs : Files) (job : JobV2) (remaining : Nat) :
    Files × JobV2 :=
  if h : job.dataCursor < job.totalRows - 1 ∧ 0 < remaining then
    have hdec : remaining - partRows job remaining < remaining := by
      have h1 : 1 ≤ job.totalRows - 1 - job.dataCursor := by omega
      have h2 : 1 ≤ dataRowsCellCap job.totalCols := le_max_left 1 _
      have h3 : 1 ≤ partRows job remaining := by
        have h4 := h.2
        unfold partRows AUTO_SPLIT_CHUNK_ROWS
        omega
      omega
    let r := v2Body table fs job remaining
    partLoop table r.1 r.2.1 r.2.2
  else (fs, job)
termination_by remaining
decreasing_by
  have hr : (v2Body table fs job remaining).2.2 = remaining - partRows job remaining := by
    unfold v2Body
    split <;> rfl
  simpa [hr] using hdec

/-- Total-row / total-column derivation of `processJobStreamingV2_`:
`if (!job.totalRows || !job.totalCols) { ... }` sets both from the parsed
table; otherwise the persisted values stand. -/
def deriveTotals (job : JobV2) (table : List (List String)) : JobV2 :=
  if job.totalRows = 0 ∨ job.totalCols = 0 then
    { job with totalRows := table.length, totalCols := (table.headD []).length }
  else job

/-- One invocation of `processJobStreamingV2_` from the point where the
parsed table is available: derive totals when unknown, run the part loop
with the per-invocation budget, then delete the persisted job when the
cursor reached the total data rows and keep the (already saved) paused job
otherwise.  The `Option JobV2` is the persisted job after the invocation. -/
def processV2 (table : List (List String)) (fs : Files) (job0 : JobV2) :
    Files × Option JobV2 :=
  let job1 := deriveTotals job0 table
  let r := partLoop table fs job1 MAX_WRITE_ROWS_PER_RUN
  if job1.totalRows - 1 ≤ r.2.dataCursor then (r.1, none) else (r.1, some r.2)

/-! ## v2 file queue (`run_all_v2`, `parseYearMonthFromName_`) -/

/-- Month-name alternation of the first filename pattern, in regex order. -/
def MONTHS : List (String × Nat) :=
  [("january", 1), ("february", 2), ("march", 3), ("april", 4), ("may", 5), ("june", 6),
   ("july", 7), ("august", 8), ("september", 9), ("october", 10), ("november", 11),
   ("december", 12)]

/-- Reads exactly `n` decimal digits, returning their value and the rest. -/
def readDigitsAux : Nat → Nat → List Char → Option (Nat × List Char)
  | 0, acc, cs => some (acc, cs)
  | _ + 1, _, [] => none
  | n + 1, acc, c :: cs =>
    if c.isDigit then readDigitsAux n (acc * 10 + (c.toNat - 48)) cs else none

/-- Tries each month name (case-insensitively) as a prefix of `cs`,
in the alternation order of the regex. -/
def tryMonths : List (String × Nat) → List Char → Option (Nat × List Char)
  | [], _ => none
  | (nm, m) :: rest, cs =>
    if nm.length ≤ cs.length ∧ (cs.take nm.length).map Char.toLower = nm.data then
      some (m, cs.drop nm.length)
    else tryMonths rest cs

/-- Leftmost match of `/(month)\s*([0-9]{4})/i`:
at each position, a month name followed by optional whitespace and four
digits; the four digits are the year. -/
def scanMonthYear : List Char → Option (Nat × Nat)
  | [] => none
  | c :: rest =>
    match tryMonths MONTHS (c :: rest) with
    | some (m, cs1) =>
      match readDigitsAux 4 0 (cs1.dropWhile Char.isWhitespace) with
      | some (y, _) => some (y, m)
      | none => scanMonthYear rest
    | none => scanMonthYear rest

/-- The trailing `\b` of the numeric pattern: the next character must be
absent or a non-word character. -/
def boundaryOk : List Char → Bool
  | [] => true
  | c :: _ => !isWordChar c

/-- One anchored attempt of `/([0-9]{4})[-_ ]?([0-9]{2})\b/`: four digits,
a greedy optional separator, two digits, and a word boundary (a failed
boundary after a separator cannot backtrack into a digit, so the attempt
fails outright, as in the regex). -/
def tryNumericAt (cs : List Char) : Option (Nat × Nat) :=
  match readDigitsAux 4 0 cs with
  | none => none
  | some (y, cs1) =>
    match cs1 with
    | [] => none
    | c :: cs2 =>
      if c = '-' ∨ c = '_' ∨ c = ' ' then
        match readDigitsAux 2 0 cs2 with
        | some (m, cs3) => if boundaryOk cs3 then some (y, m) else none
        | none => none
      else
        match readDigitsAux 2 0 cs1 with
        | some (m, cs3) => if boundaryOk cs3 then some (y, m) else none
        | none => none

/-- Leftmost match of the numeric year-month pattern. -/
def scanNumeric : List Char → Option (Nat × Nat)
  | [] => none
  | c :: rest =>
    match tryNumericAt (c :: rest) with
    | some r => some r
    | none => scanNumeric rest

/-- JS `name.replace(/\.csv$/i, '')`. -/
def stripCsvExt (name : String) : String :=
  if (toLowerStr name).data.reverse.take 4 = ['v', 's', 'c', '.'] then
    String.mk (name.data.take (name.data.length - 4))
  else name

/-- Infers a (year, month) tag from a filename (`parseYearMonthFromName_`):
month-name-plus-year first, then numeric year-month, else `null`. -/
def parseYearMonthFromName_ (name : String) : Option (Nat × Nat) :=
  let base := (stripCsvExt name).data
  match scanMonthYear base with
  | some r => some r
  | none => scanNumeric base

/-- A queue entry of `run_all_v2`: file name and inferred (year, month). -/
structure QItem where
  name : String
  ym : Option (Nat × Nat)
deriving DecidableEq, Repr

/-- Model of JS `String.prototype.localeCompare` by the lexicographic
string order: negative, zero or positive as `x` is below, equal to or
above `y`. -/
def localeCmp (x y : String) : Int :=
  if x < y then -1 else if x = y then 0 else 1

/-- The `run_all_v2` sort comparator: newest first by year then month,
unknown dates last, ties by descending name
(`b.name.localeCompare(a.name)`). -/
def cmpV2 (a b : QItem) : Int :=
  match a.ym, b.ym with
  | some p, some q =>
    if p.1 ≠ q.1 then (q.1 : Int) - (p.1 : Int)
    else if p.2 ≠ q.2 then (q.2 : Int) - (p.2 : Int)
    else localeCmp b.name a.name
  | some _, none => -1
  | none, some _ => 1
  | none, none => localeCmp b.name a.name

/-- The ordering induced by the comparator: `a` may precede `b`. -/
abbrev queueLE (a b : QItem) : Prop := cmpV2 a b ≤ 0

/-- The v2 file queue: the `.csv` files of the folder, tagged by
`parseYearMonthFromName_` and sorted by the comparator.  The JS
`Array.prototype.sort` (stable, consistent comparator) is modelled by the
stable `List.insertionSort` over `queueLE`. -/
def buildQueueV2 (names : List String) : List QItem :=
  List.insertionSort queueLE
    ((names.filter (fun n => (toLowerStr n).data.reverse.take 4 = ['v', 's', 'c', '.'])).map
      (fun n => ⟨n, parseYearMonthFromName_ n⟩))

/-! ## Watchdog (`watchdog_v2`) -/

/-- Persisted v2 queue as the watchdog reads it. -/
structure WQueue where
  idx : Nat
  items : List String
deriving DecidableEq, Repr

/-- Observable outcome of one watchdog firing: the scheduled deferred
re-invocation (delay in minutes and handler name), if any, and the phase
string logged. -/
structure WatchResult where
  scheduled : Option (Nat × String)
  phase : String
deriving DecidableEq, Repr

/-- One firing of `watchdog_v2`: with no queue or a finished queue it logs
an idle heartbeat; with remaining entries it re-arms a 1-minute
`resume_all_v2_safe` trigger only when none is pending. -/
def watchdog_v2 (queue : Option WQueue) (hasResume : Bool) : WatchResult :=
  match queue with
  | none => ⟨none, "watchdog_ok"⟩
  | some q =>
    if q.items.length ≤ q.idx then ⟨none, "watchdog_ok"⟩
    else if hasResume = false then ⟨some (1, "resume_all_v2_safe"), "watchdog_rescheduled"⟩
    else ⟨none, "watchdog_ok"⟩

/-! ## Test host for concrete runs

A concrete `Host` used for end-to-end evaluations in the theorems below:
timestamps are decimal-digit strings read as seconds, classifications are
literal message comparisons. -/

/-- Concrete host for closed theorems: digit strings parse as seconds. -/
def testHost : Host where
  parseTs s := (s.data.foldl (fun a c => match a with
    | none => none
    | some v => if c.isDigit then some (v * 10 + (c.toNat - 48)) else none) (some 0)).map
      (fun n => (n : Int) * 1000)
  toIso n := "ISO" ++ toString n
  isStart m := m = "checked out recipe"
  isEnd m := m = "checked in recipe"
  isAutoEnd _ := false
  extractRecipeId _ := ""
  extractMaterialName _ := ""
  extractMaterialId _ := ""
  splitUser s := ⟨s, "", ""⟩

/-- Concrete 5-line input: a 9-column header, two session starts for the
same key (timestamps 1000 s and 2000 s) and two ends (3000 s and 4000 s). -/
def demoLines : List String :=
  ["User ID|ID|Subseq ID|Message|Audit Time|Action|Type|Label|Version",
   "alice|1||checked out recipe|1000|a|t|l|v",
   "alice|2||checked out recipe|2000|a|t|l|v",
   "alice|3||checked in recipe|3000|a|t|l|v",
   "alice|4||checked in recipe|4000|a|t|l|v"]

/-! ## Helper lemmas -/

/-- `tryToNine_` always succeeds: the failure branch needs a length both
above 9 and below 10. -/
theorem tryToNine_ok (cells : List String) : (tryToNine_ cells).ok = true := by
  unfold tryToNine_
  by_cases h9 : cells.length = 9
  · simp [h9]
  · by_cases hgt : 9 < cells.length
    · have h10 : 10 ≤ cells.length := by omega
      simp [h9, hgt, h10]
    · simp [h9, hgt]

/-- Reading a key after writing a key in the `startsByKey` object. -/
theorem stacksGet_stacksSet (st : Stacks) (k : String) (l : List Window) (k' : String) :
    stacksGet (stacksSet st k l) k' = if k' = k then l else stacksGet st k' := by
  induction st with
  | nil =>
    simp only [stacksSet, stacksGet]
    by_cases h : k = k'
    · rw [if_pos h, if_pos h.symm]
    · rw [if_neg h, if_neg (fun hh => h hh.symm)]
  | cons e rest ih =>
    obtain ⟨a, b⟩ := e
    by_cases hak : a = k
    · subst hak
      by_cases hk' : k' = a
      · subst hk'
        simp [stacksSet, stacksGet]
      · have hak' : ¬ a = k' := fun hh => hk' hh.symm
        simp [stacksSet, stacksGet, hk', hak']
    · by_cases hak' : a = k'
      · have hk'k : ¬ k' = k := fun hh => hak (hak'.trans hh)
        simp [stacksSet, stacksGet, hak, hak', hk'k]
      · have hk2 : ¬ k' = a := fun hh => hak' hh.symm
        simp [stacksSet, stacksGet, hak, hak', ih]

/-- Case analysis of one pass-2 iteration: either the accumulator is
unchanged (not an end, no parseable timestamp, or empty stack), or the most
recent window is popped and the end/duration cells are written on its row. -/
theorem pass2Step_cases (host : Host) (cE cD : Nat)
    (acc : List (List String) × Stacks) (meta : Meta) :
    pass2Step host cE cD acc meta = acc ∨
    (∃ endMs w rest, meta.isEnd = true ∧ meta.ts = some endMs ∧
      stacksGet acc.2 meta.key = w :: rest ∧
      pass2Step host cE cD acc meta =
        (acc.1.set w.rowIndex
          (((acc.1.getD w.rowIndex []).set cE (host.toIso endMs)).set cD
            (toString (durationSec meta.isAutoEnd (rawSeconds w.startTs endMs)))),
         stacksSet acc.2 meta.key rest)) := by
  unfold pass2Step
  by_cases hend : meta.isEnd = false
  · left; simp [hend]
  · have hend' : meta.isEnd = true := by
      cases h : meta.isEnd
      · exact absurd h hend
      · rfl
    cases hts : meta.ts with
    | none => left; simp [hend', hts]
    | some endMs =>
      cases hst : stacksGet acc.2 meta.key with
      | nil => left; simp [hend', hts, hst]
      | cons w rest =>
        right
        exact ⟨endMs, w, rest, hend', rfl, rfl, by simp [hend', hts, hst]⟩

/-- Pass 2 never changes the number of table rows. -/
theorem pass2_length (host : Host) (cE cD : Nat) :
    ∀ (metas : List Meta) (acc : List (List String) × Stacks),
      ((metas.foldl (pass2Step host cE cD) acc).1).length = acc.1.length := by
  intro metas
  induction metas with
  | nil => intro acc; rfl
  | cons m rest ih =>
    intro acc
    rw [List.foldl_cons, ih]
    rcases pass2Step_cases host cE cD acc m with h | ⟨endMs, w, wrest, _, _, _, h⟩
    · rw [h]
    · rw [h]
      simp [List.length_set]

/-- One pass-1 iteration leaves the bad-line sink unchanged and appends
exactly one table row, for every non-empty line (`tryToNine_` never
fails). -/
theorem pass1Step_spec (host : Host) (fileName : String) (hdrLen : Nat)
    (acc : P1Acc) (il : Nat × String) :
    (pass1Step host fileName hdrLen acc il).bads = acc.bads ∧
    (pass1Step host fileName hdrLen acc il).out.length
      = acc.out.length + (if il.2 = "" then 0 else 1) := by
  by_cases he : il.2 = ""
  · simp [pass1Step, he]
  · have hok := tryToNine_ok ((splitPipesQuoted il.2).map jsTrim)
    simp only [pass1Step, he, hok, if_neg, ite_false, Bool.true_eq_false, if_false]
    constructor
    · simp
    · split
      · split <;> simp [List.length_set, List.length_append]
      · simp [List.length_append]

/-- Pass-1 fold: the bad-line sink stays empty and the table grows by one
row per non-empty line. -/
theorem pass1_fold_spec (host : Host) (fileName : String) (hdrLen : Nat) :
    ∀ (L : List (Nat × String)) (acc : P1Acc),
      (L.foldl (pass1Step host fileName hdrLen) acc).bads = acc.bads ∧
      (L.foldl (pass1Step host fileName hdrLen) acc).out.length
        = acc.out.length + (L.filter (fun il => il.2 ≠ "")).length := by
  intro L
  induction L with
  | nil => intro acc; simp
  | cons il rest ih =>
    intro acc
    rw [List.foldl_cons]
    obtain ⟨hb, ho⟩ := pass1Step_spec host fileName hdrLen acc il
    obtain ⟨hb2, ho2⟩ := ih (pass1Step host fileName hdrLen acc il)
    constructor
    · rw [hb2, hb]
    · rw [ho2, ho]
      by_cases he : il.2 = "" <;> simp [he, List.filter_cons] <;> omega

/-- Counting non-empty entries is unaffected by the `enumFrom` pairing. -/
theorem filter_enumFrom_length (p : String → Bool) :
    ∀ (L : List String) (n : Nat),
      ((L.enumFrom n).filter (fun il => p il.2)).length = (L.filter p).length := by
  intro L
  induction L with
  | nil => intro n; rfl
  | cons a rest ih =>
    intro n
    by_cases hp : p a <;> simp [List.enumFrom, List.filter_cons, hp, ih]

/-! ## Claim theorems -/

/-- C1: the arity-9 coercion passes exactly-9 cell lists through unchanged
and untagged; at least 10 cells keep the first 3 and last 5 cells and join
the cells in between with the pipe delimiter into the single message field,
tagged COERCED, giving exactly 9 cells; fewer than 9 cells are right-padded
with empty strings to exactly 9, tagged PADDED. -/
theorem c1_arity9_coercion (cells : List String) :
    (cells.length = 9 → tryToNine_ cells = ⟨true, cells, ""⟩) ∧
    (10 ≤ cells.length →
      tryToNine_ cells =
        ⟨true, cells.take 3 ++
          [String.intercalate "|" ((cells.drop 3).take (cells.length - 8))] ++
          cells.drop (cells.length - 5), "COERCED"⟩ ∧
      (tryToNine_ cells).cols.length = 9) ∧
    (cells.length < 9 →
      tryToNine_ cells = ⟨true, cells ++ List.replicate (9 - cells.length) "", "PADDED"⟩ ∧
      (tryToNine_ cells).cols.length = 9) := by
  refine ⟨?_, ?_, ?_⟩
  · intro h9
    simp [tryToNine_, h9]
  · intro h10
    have h9 : ¬ cells.length = 9 := by omega
    have hgt : 9 < cells.length := by omega
    have heq : tryToNine_ cells =
        ⟨true, cells.take 3 ++
          [String.intercalate "|" ((cells.drop 3).take (cells.length - 8))] ++
          cells.drop (cells.length - 5), "COERCED"⟩ := by
      simp [tryToNine_, h9, hgt, h10]
    refine ⟨heq, ?_⟩
    rw [heq]
    simp only [List.length_append, List.length_take, List.length_drop,
      List.length_singleton]
    omega
  · intro hlt
    have h9 : ¬ cells.length = 9 := by omega
    have hgt : ¬ 9 < cells.length := by omega
    have heq : tryToNine_ cells =
        ⟨true, cells ++ List.replicate (9 - cells.length) "", "PADDED"⟩ := by
      simp [tryToNine_, h9, hgt]
    refine ⟨heq, ?_⟩
    rw [heq]
    simp only [List.length_append, List.length_replicate]
    omega

/-- C1 witness: the three coercion branches at concrete cell lists. -/
theorem c1_arity9_coercion_witness :
    (tryToNine_ ["1", "2", "3", "4", "5", "6", "7", "8", "9"] =
      ⟨true, ["1", "2", "3", "4", "5", "6", "7", "8", "9"], ""⟩) ∧
    (tryToNine_ ["a", "b", "c", "d", "e", "f", "g", "h", "i", "j"] =
      ⟨true, ["a", "b", "c", "d", "e", "f", "g", "h", "i", "j"].take 3 ++
        [String.intercalate "|"
          ((["a", "b", "c", "d", "e", "f", "g", "h", "i", "j"].drop 3).take
            (["a", "b", "c", "d", "e", "f", "g", "h", "i", "j"].length - 8))] ++
        ["a", "b", "c", "d", "e", "f", "g", "h", "i", "j"].drop
          (["a", "b", "c", "d", "e", "f", "g", "h", "i", "j"].length - 5), "COERCED"⟩ ∧
      (tryToNine_ ["a", "b", "c", "d", "e", "f", "g", "h", "i", "j"]).cols.length = 9) ∧
    (tryToNine_ ["a", "b", "c", "d", "e"] =
      ⟨true, ["a", "b", "c", "d", "e"] ++
        List.replicate (9 - ["a", "b", "c", "d", "e"].length) "", "PADDED"⟩ ∧
      (tryToNine_ ["a", "b", "c", "d", "e"]).cols.length = 9) :=
  ⟨(c1_arity9_coercion ["1", "2", "3", "4", "5", "6", "7", "8", "9"]).1 (by decide),
   (c1_arity9_coercion ["a", "b", "c", "d", "e", "f", "g", "h", "i", "j"]).2.1 (by decide),
   (c1_arity9_coercion ["a", "b", "c", "d", "e"]).2.2 (by decide)⟩

/-- C9: the arity-9 coercion always returns ok (the TOO_MANY_FIELDS branch
needs a length strictly between 9 and 10 and is unreachable), so the parser
never rejects a row, the bad-line sink receives nothing, and every
non-empty input line after the header becomes exactly one table row. -/
theorem c9_parser_never_rejects :
    (∀ cells : List String, (tryToNine_ cells).ok = true) ∧
    (∀ (host : Host) (lines : List String) (fileName : String),
      (parseLinesToTable host lines fileName).2 = [] ∧
      (parseLinesToTable host lines fileName).1.length
        = 1 + ((lines.drop 1).filter (fun l => l ≠ "")).length) := by
  refine ⟨tryToNine_ok, ?_⟩
  intro host lines fileName
  unfold parseLinesToTable
  obtain ⟨hb, ho⟩ := pass1_fold_spec host fileName
    (((jsSplitOnChar '|' (lines.headD "")).map jsTrim).map normalizeHeaderName
      ++ derivedHeaderNames).length
    ((lines.drop 1).enumFrom 1)
    ⟨[((jsSplitOnChar '|' (lines.headD "")).map jsTrim).map normalizeHeaderName
      ++ derivedHeaderNames], [], [], []⟩
  refine ⟨hb, ?_⟩
  rw [pass2_length, ho]
  simp only [List.length_singleton]
  rw [filter_enumFrom_length (fun l => l ≠ "") (lines.drop 1) 1]

/-- C2: the written session duration.  The raw duration is
`max 0 (floor ((endMs - startMs) / 1000))` whole seconds with the end
timestamp standing in for an unparseable start; an auto-end caps at exactly
28800 s; otherwise a raw duration above 28000 s becomes 28000 when
`floor (raw / 86400)` is 0 or 1 and `floor (raw / 86400) * 28000` when it
is larger; otherwise the raw duration is written unchanged.  The final
conjunct ties the formula to the duration cell actually written by a
pass-2 pop. -/
theorem c2_duration_capping (startTs : Option Int) (endMs : Int) (auto : Bool) :
    rawSeconds startTs endMs = max 0 ((endMs - startTs.getD endMs).fdiv 1000) ∧
    (startTs = none → rawSeconds startTs endMs = 0) ∧
    (auto = true →
      (rawSeconds startTs endMs < 28800 →
        durationSec auto (rawSeconds startTs endMs) = rawSeconds startTs endMs) ∧
      (28800 ≤ rawSeconds startTs endMs →
        durationSec auto (rawSeconds startTs endMs) = 28800)) ∧
    (auto = false →
      (28000 < rawSeconds startTs endMs →
        (((rawSeconds startTs endMs).fdiv 86400 = 0 ∨
          (rawSeconds startTs endMs).fdiv 86400 = 1) →
          durationSec auto (rawSeconds startTs endMs) = 28000) ∧
        (1 < (rawSeconds startTs endMs).fdiv 86400 →
          durationSec auto (rawSeconds startTs endMs) =
            (rawSeconds startTs endMs).fdiv 86400 * 28000)) ∧
      (rawSeconds startTs endMs ≤ 28000 →
        durationSec auto (rawSeconds startTs endMs) = rawSeconds startTs endMs)) ∧
    (∀ (host : Host) (cE cD : Nat) (table : List (List String)) (st : Stacks)
        (meta : Meta) (w : Window) (rest : List Window),
      meta.isEnd = true → meta.ts = some endMs → meta.isAutoEnd = auto →
      w.startTs = startTs → stacksGet st meta.key = w :: rest →
      cE ≠ cD → cD < (table.getD w.rowIndex []).length →
      cellAt (pass2Step host cE cD (table, st) meta).1 w.rowIndex cD =
        some (toString (durationSec auto (rawSeconds startTs endMs)))) := by
  refine ⟨rfl, ?_, ?_, ?_, ?_⟩
  · intro h
    subst h
    simp [rawSeconds]
  · intro ha
    subst ha
    constructor
    · intro hlt
      simp [durationSec, hlt]
    · intro hge
      have hnlt : ¬ rawSeconds startTs endMs < 28800 := by omega
      simp [durationSec, hnlt]
  · intro ha
    subst ha
    refine ⟨?_, ?_⟩
    · intro hgt
      constructor
      · intro hdays
        have hle : (rawSeconds startTs endMs).fdiv 86400 ≤ 1 := by
          rcases hdays with h | h <;> omega
        simp [durationSec, hgt, hle]
      · intro hdays
        have hle : ¬ (rawSeconds startTs endMs).fdiv 86400 ≤ 1 := by omega
        simp [durationSec, hgt, hle]
    · intro hle
      have hngt : ¬ 28000 < rawSeconds startTs endMs := by omega
      simp [durationSec, hngt]
  · intro host cE cD table st meta w rest hend hts hauto hstart hstack hne hcd
    have hrow : w.rowIndex < table.length := by
      by_contra hge
      push_neg at hge
      rw [List.getD_eq_getElem?_getD, List.getElem?_eq_none hge] at hcd
      simp at hcd
    have h1 : pass2Step host cE cD (table, st) meta =
        (table.set w.rowIndex
          (((table.getD w.rowIndex []).set cE (host.toIso endMs)).set cD
            (toString (durationSec meta.isAutoEnd (rawSeconds w.startTs endMs)))),
         stacksSet st meta.key rest) := by
      unfold pass2Step
      simp [hend, hts, hstack]
    rw [h1, hauto, hstart]
    have hcd2 : cD < ((table.getD w.rowIndex []).set cE (host.toIso endMs)).length := by
      simpa using hcd
    simp only [cellAt, List.getElem?_set_self hrow, Option.getD_some, Option.some_bind]
    rw [List.getElem?_set_self
      (by simp only [List.length_set]; simpa [List.getD_eq_getElem?_getD] using hcd)]

/-- C2 witness: a non-auto session of 30,000,000 raw seconds (347 elapsed
days) is written as 347 × 28000. -/
theorem c2_duration_capping_witness :
    1 < (rawSeconds (some 0) 30000000000).fdiv 86400 ∧
    durationSec false (rawSeconds (some 0) 30000000000) =
      (rawSeconds (some 0) 30000000000).fdiv 86400 * 28000 :=
  ⟨by decide,
   (((c2_duration_capping (some 0) 30000000000 false).2.2.2.1 rfl).1 (by decide)).2
     (by decide)⟩

/-- The classification record `pass1Step` computes for a line appended at
`outIndex`: the meta of the coerced, trimmed, quote-aware split cells. -/
def lineMeta (host : Host) (line : String) (outIndex : Nat) : Meta :=
  metaOf host (tryToNine_ ((splitPipesQuoted line).map jsTrim)).cols outIndex

/-- The stacks after one pass-1 iteration: a start pushes its window onto
its key's stack, anything else leaves the stacks unchanged. -/
theorem pass1Step_st_char (host : Host) (fileName : String) (hdrLen : Nat)
    (acc : P1Acc) (i : Nat) (line : String) (hline : line ≠ "") :
    (pass1Step host fileName hdrLen acc (i, line)).st =
      (if (lineMeta host line acc.out.length).isStart then
        stacksSet acc.st (lineMeta host line acc.out.length).key
          (⟨acc.out.length, (lineMeta host line acc.out.length).ts⟩ ::
            stacksGet acc.st (lineMeta host line acc.out.length).key)
      else acc.st) := by
  unfold pass1Step lineMeta
  have hok := tryToNine_ok ((splitPipesQuoted line).map jsTrim)
  simp [hline, hok]

/-- C3: session pairing is LIFO per correlation key.  (1) In pass 1 a
start-classified row pushes its window on top of its key's stack and leaves
every other key untouched, and a non-start row changes no stack.  (2) In
pass 2 an end-classified row with a parseable timestamp pops exactly the
most recently pushed open window of its key and writes the session-end and
session-duration cells on that window's row.  (3) Concretely, for starts
S1, S2 under one key followed by ends E1, E2 under that key, E1 closes S2
(row 2 gets end 3000 s, duration 1000 s) and E2 closes S1 (row 1 gets end
4000 s, duration 3000 s). -/
theorem c3_lifo_session_pairing (host : Host) :
    (∀ (fileName : String) (hdrLen : Nat) (acc : P1Acc) (i : Nat) (line : String),
      line ≠ "" →
      ((lineMeta host line acc.out.length).isStart = true →
        stacksGet (pass1Step host fileName hdrLen acc (i, line)).st
            (lineMeta host line acc.out.length).key =
          ⟨acc.out.length, (lineMeta host line acc.out.length).ts⟩ ::
            stacksGet acc.st (lineMeta host line acc.out.length).key ∧
        (∀ k, k ≠ (lineMeta host line acc.out.length).key →
          stacksGet (pass1Step host fileName hdrLen acc (i, line)).st k =
            stacksGet acc.st k)) ∧
      ((lineMeta host line acc.out.length).isStart = false →
        (pass1Step host fileName hdrLen acc (i, line)).st = acc.st)) ∧
    (∀ (cE cD : Nat) (table : List (List String)) (st : Stacks) (meta : Meta)
        (w : Window) (rest : List Window) (endMs : Int),
      meta.isEnd = true → meta.ts = some endMs → stacksGet st meta.key = w :: rest →
      (pass2Step host cE cD (table, st) meta).2 = stacksSet st meta.key rest ∧
      stacksGet (pass2Step host cE cD (table, st) meta).2 meta.key = rest ∧
      (pass2Step host cE cD (table, st) meta).1 =
        table.set w.rowIndex
          (((table.getD w.rowIndex []).set cE (host.toIso endMs)).set cD
            (toString (durationSec meta.isAutoEnd (rawSeconds w.startTs endMs))))) ∧
    (cellAt (parseLinesToTable testHost demoLines "f").1 2 18 = some "ISO3000000" ∧
     cellAt (parseLinesToTable testHost demoLines "f").1 2 19 = some "1000" ∧
     cellAt (parseLinesToTable testHost demoLines "f").1 1 18 = some "ISO4000000" ∧
     cellAt (parseLinesToTable testHost demoLines "f").1 1 19 = some "3000") := by
  refine ⟨?_, ?_, ?_⟩
  · intro fileName hdrLen acc i line hline
    rw [pass1Step_st_char host fileName hdrLen acc i line hline]
    constructor
    · intro hstart
      rw [if_pos hstart]
      constructor
      · rw [stacksGet_stacksSet, if_pos rfl]
      · intro k hk
        rw [stacksGet_stacksSet, if_neg hk]
    · intro hnostart
      rw [hnostart]
      simp
  · intro cE cD table st meta w rest endMs hend hts hstack
    have h1 : pass2Step host cE cD (table, st) meta =
        (table.set w.rowIndex
          (((table.getD w.rowIndex []).set cE (host.toIso endMs)).set cD
            (toString (durationSec meta.isAutoEnd (rawSeconds w.startTs endMs)))),
         stacksSet st meta.key rest) := by
      unfold pass2Step
      simp [hend, hts, hstack]
    rw [h1]
    refine ⟨rfl, ?_, rfl⟩
    rw [stacksGet_stacksSet, if_pos rfl]
  · exact ⟨by decide, by decide, by decide, by decide⟩

/-- C3 witness: pass-1 push and pass-2 pop instantiated on the concrete
test host and a concrete accumulator and end row. -/
theorem c3_lifo_session_pairing_witness :
    (stacksGet (pass1Step testHost "f" 20
        ⟨[[]], [], [], []⟩ (1, "alice|1||checked out recipe|1000|a|t|l|v")).st
        (lineMeta testHost "alice|1||checked out recipe|1000|a|t|l|v" 1).key =
      ⟨1, (lineMeta testHost "alice|1||checked out recipe|1000|a|t|l|v" 1).ts⟩ ::
        stacksGet []
          (lineMeta testHost "alice|1||checked out recipe|1000|a|t|l|v" 1).key) ∧
    (pass2Step testHost 18 19 ([], [("k", [⟨1, some 0⟩, ⟨0, some 0⟩])])
        ⟨"k", false, true, false, some 5000, 3⟩).2 =
      stacksSet [("k", [⟨1, some 0⟩, ⟨0, some 0⟩])] "k" [⟨0, some 0⟩] :=
  ⟨((((c3_lifo_session_pairing testHost).1 "f" 20 ⟨[[]], [], [], []⟩ 1
      "alice|1||checked out recipe|1000|a|t|l|v" (by decide)).1 (by decide)).1),
   (((c3_lifo_session_pairing testHost).2.1 18 19 [] [("k", [⟨1, some 0⟩, ⟨0, some 0⟩])]
      ⟨"k", false, true, false, some 5000, 3⟩ ⟨1, some 0⟩ [⟨0, some 0⟩] 5000 rfl rfl
      (by decide)).1)⟩

/-- Pass 2 never adds windows: every window open after a step was open
before it. -/
theorem pass2Step_windows_subset (host : Host) (cE cD : Nat)
    (acc : List (List String) × Stacks) (meta : Meta) (k : String) (w : Window) :
    w ∈ stacksGet (pass2Step host cE cD acc meta).2 k → w ∈ stacksGet acc.2 k := by
  intro hw
  rcases pass2Step_cases host cE cD acc meta with h | ⟨endMs, w0, rest, _, _, hst, h⟩
  · rw [h] at hw
    exact hw
  · rw [h] at hw
    simp only [stacksGet_stacksSet] at hw
    by_cases hk : k = meta.key
    · rw [if_pos hk] at hw
      rw [hk, hst]
      exact List.mem_cons_of_mem _ hw
    · rw [if_neg hk] at hw
      exact hw

/-- A pass-2 step touches a row only by popping a window that references
it. -/
theorem pass2Step_write_location (host : Host) (cE cD : Nat)
    (acc : List (List String) × Stacks) (meta : Meta) (r : Nat) :
    (pass2Step host cE cD acc meta).1[r]? ≠ acc.1[r]? →
    ∃ w rest endMs, meta.isEnd = true ∧ meta.ts = some endMs ∧
      stacksGet acc.2 meta.key = w :: rest ∧ w.rowIndex = r := by
  intro hne
  rcases pass2Step_cases host cE cD acc meta with h | ⟨endMs, w0, rest, hend, hts, hst, h⟩
  · exact absurd (by rw [h]) hne
  · by_cases hr : w0.rowIndex = r
    · exact ⟨w0, rest, endMs, hend, hts, hst, hr⟩
    · refine absurd ?_ hne
      rw [h]
      exact List.getElem?_set_ne hr

/-- A pass-2 step leaves a row unchanged when no open window references
it. -/
theorem pass2Step_row_preserve (host : Host) (cE cD : Nat)
    (acc : List (List String) × Stacks) (meta : Meta) (r : Nat)
    (hr : ∀ k w, w ∈ stacksGet acc.2 k → w.rowIndex ≠ r) :
    (pass2Step host cE cD acc meta).1[r]? = acc.1[r]? := by
  rcases pass2Step_cases host cE cD acc meta with h | ⟨endMs, w0, rest, _, _, hst, h⟩
  · rw [h]
  · rw [h]
    have hw : w0 ∈ stacksGet acc.2 meta.key := by
      rw [hst]
      exact List.mem_cons_self _ _
    exact List.getElem?_set_ne (hr _ _ hw)

/-- A pass-2 step leaves every column other than the session-end and
session-duration columns unchanged. -/
theorem pass2Step_col_preserve (host : Host) (cE cD : Nat)
    (acc : List (List String) × Stacks) (meta : Meta) (r c : Nat)
    (hcE : c ≠ cE) (hcD : c ≠ cD) :
    cellAt (pass2Step host cE cD acc meta).1 r c = cellAt acc.1 r c := by
  rcases pass2Step_cases host cE cD acc meta with h | ⟨endMs, w0, rest, _, _, hst, h⟩
  · rw [h]
  · rw [h]
    unfold cellAt
    by_cases hr : w0.rowIndex = r
    · subst hr
      by_cases hlen : w0.rowIndex < acc.1.length
      · rw [List.getElem?_set_self hlen, List.getElem?_eq_getElem hlen]
        simp only [Option.some_bind]
        rw [List.getElem?_set_ne (Ne.symm hcD), List.getElem?_set_ne (Ne.symm hcE)]
        rw [List.getD_eq_getElem?_getD, List.getElem?_eq_getElem hlen]
        rfl
      · rw [List.set_eq_of_length_le (by omega)]
    · rw [List.getElem?_set_ne hr]

/-- C8: an end event whose key has no open window is ignored without error
and without modifying the table or the stacks; and pass 2 writes only onto
rows whose windows it pops — a step that changes a row popped a window
referencing that row, rows with no open window are never changed by the
whole pass, and no column other than session-end and session-duration is
ever changed, so an unpopped start row keeps only its session-start
field. -/
theorem c8_unmatched_events (host : Host) (cE cD : Nat) :
    (∀ (table : List (List String)) (st : Stacks) (meta : Meta),
      meta.isEnd = true → meta.ts ≠ none → stacksGet st meta.key = [] →
      pass2Step host cE cD (table, st) meta = (table, st)) ∧
    (∀ (acc : List (List String) × Stacks) (meta : Meta) (r : Nat),
      (pass2Step host cE cD acc meta).1[r]? ≠ acc.1[r]? →
      ∃ w rest endMs, meta.isEnd = true ∧ meta.ts = some endMs ∧
        stacksGet acc.2 meta.key = w :: rest ∧ w.rowIndex = r) ∧
    (∀ (metas : List Meta) (table : List (List String)) (st : Stacks) (r : Nat),
      (∀ k w, w ∈ stacksGet st k → w.rowIndex ≠ r) →
      ((metas.foldl (pass2Step host cE cD) (table, st)).1)[r]? = table[r]?) ∧
    (∀ (metas : List Meta) (table : List (List String)) (st : Stacks) (r c : Nat),
      c ≠ cE → c ≠ cD →
      cellAt ((metas.foldl (pass2Step host cE cD) (table, st)).1) r c =
        cellAt table r c) := by
  refine ⟨?_, pass2Step_write_location host cE cD, ?_, ?_⟩
  · intro table st meta hend hts hempty
    unfold pass2Step
    cases hts' : meta.ts with
    | none => exact absurd hts' hts
    | some endMs => simp [hend, hts', hempty]
  · intro metas
    induction metas with
    | nil => intro table st r hr; rfl
    | cons m rest ih =>
      intro table st r hr
      rw [List.foldl_cons]
      have hstep := pass2Step_row_preserve host cE cD (table, st) m r hr
      have hinv : ∀ k w, w ∈ stacksGet (pass2Step host cE cD (table, st) m).2 k →
          w.rowIndex ≠ r :=
        fun k w hw => hr k w (pass2Step_windows_subset host cE cD (table, st) m k w hw)
      calc ((rest.foldl (pass2Step host cE cD) (pass2Step host cE cD (table, st) m)).1)[r]?
          = ((pass2Step host cE cD (table, st) m).1)[r]? := by
            have := ih (pass2Step host cE cD (table, st) m).1
              (pass2Step host cE cD (table, st) m).2 r hinv
            simpa using this
        _ = table[r]? := hstep
  · intro metas
    induction metas with
    | nil => intro table st r c hcE hcD; rfl
    | cons m rest ih =>
      intro table st r c hcE hcD
      rw [List.foldl_cons]
      have hstep := pass2Step_col_preserve host cE cD (table, st) m r c hcE hcD
      calc cellAt ((rest.foldl (pass2Step host cE cD) (pass2Step host cE cD (table, st) m)).1) r c
          = cellAt ((pass2Step host cE cD (table, st) m).1) r c := by
            have := ih (pass2Step host cE cD (table, st) m).1
              (pass2Step host cE cD (table, st) m).2 r c hcE hcD
            simpa using this
        _ = cellAt table r c := hstep

/-- C8 witness: a concrete end event with an empty stack is a no-op, and a
concrete unrelated column survives a full pass 2. -/
theorem c8_unmatched_events_witness :
    pass2Step testHost 18 19 ([["x"]], []) ⟨"k", false, true, false, some 5000, 1⟩ =
      ([["x"]], []) ∧
    cellAt (([⟨"k", false, true, false, some 5000, 1⟩].foldl (pass2Step testHost 18 19)
      ([["x"]], [("k", [⟨0, some 0⟩])])).1) 0 0 = cellAt [["x"]] 0 0 :=
  ⟨(c8_unmatched_events testHost 18 19).1 [["x"]] [] ⟨"k", false, true, false, some 5000, 1⟩
      rfl (by decide) rfl,
   (c8_unmatched_events testHost 18 19).2.2.2 [⟨"k", false, true, false, some 5000, 1⟩]
      [["x"]] [("k", [⟨0, some 0⟩])] 0 0 (by decide) (by decide)⟩

/-- The job and budget after one v2 loop body: the cursor advances by the
chosen part size and the part index by one, in both the skip and the write
branch. -/
theorem v2Body_char (table : List (List String)) (fs : Files) (job : JobV2)
    (remaining : Nat) :
    (v2Body table fs job remaining).2.1 =
      { job with dataCursor := job.dataCursor + partRows job remaining,
                 partIndex := job.partIndex + 1 } ∧
    (v2Body table fs job remaining).2.2 = remaining - partRows job remaining := by
  unfold v2Body
  constructor
  · split
    · rfl
    · rfl
  · split
    · rfl
    · rfl

/-- Inside the loop the chosen part size is at least one row. -/
theorem partRows_pos (job : JobV2) (remaining : Nat)
    (h1 : job.dataCursor < job.totalRows - 1) (h2 : 0 < remaining) :
    1 ≤ partRows job remaining := by
  have hc : 1 ≤ dataRowsCellCap job.totalCols := le_max_left 1 _
  unfold partRows AUTO_SPLIT_CHUNK_ROWS
  omega

/-- The v2 part loop advances the cursor by exactly the minimum of the
remaining budget and the data rows left, and never touches the totals. -/
theorem partLoop_spec (table : List (List String)) :
    ∀ (remaining : Nat) (fs : Files) (job : JobV2),
      (partLoop table fs job remaining).2.totalRows = job.totalRows ∧
      (partLoop table fs job remaining).2.totalCols = job.totalCols ∧
      (partLoop table fs job remaining).2.dataCursor =
        job.dataCursor + min remaining (job.totalRows - 1 - job.dataCursor) := by
  intro remaining
  induction remaining using Nat.strong_induction_on with
  | _ remaining ih =>
    intro fs job
    rw [partLoop]
    split
    · rename_i h
      obtain ⟨hj, hrem⟩ := v2Body_char table fs job remaining
      have hpos : 1 ≤ partRows job remaining := partRows_pos job remaining h.1 h.2
      have hle1 : partRows job remaining ≤ job.totalRows - 1 - job.dataCursor := by
        unfold partRows
        omega
      have hle2 : partRows job remaining ≤ remaining := by
        unfold partRows
        omega
      have hlt : (v2Body table fs job remaining).2.2 < remaining := by
        rw [hrem]
        omega
      obtain ⟨ht1, ht2, hc⟩ := ih (v2Body table fs job remaining).2.2 hlt
        (v2Body table fs job remaining).1 (v2Body table fs job remaining).2.1
      refine ⟨?_, ?_, ?_⟩
      · rw [ht1, hj]
      · rw [ht2, hj]
      · rw [hc, hj, hrem]
        simp only []
        omega
    · rename_i h
      refine ⟨rfl, rfl, ?_⟩
      dsimp only
      omega

/-- C5: for a job with data rows left, one invocation of the v2 part loop
advances the cursor by exactly
`min MAX_WRITE_ROWS_PER_RUN (totalDataRows - cursor)`; afterwards the
persisted job is deleted exactly when the cursor reached the total data
rows and is otherwise kept with the updated cursor and part index; the
totals are derived only when not both already set and are never changed by
the loop. -/
theorem c5_resumable_invocation (table : List (List String)) (fs : Files) (job0 : JobV2)
    (h : (deriveTotals job0 table).dataCursor < (deriveTotals job0 table).totalRows - 1) :
    (partLoop table fs (deriveTotals job0 table) MAX_WRITE_ROWS_PER_RUN).2.dataCursor =
      (deriveTotals job0 table).dataCursor +
        min MAX_WRITE_ROWS_PER_RUN
          ((deriveTotals job0 table).totalRows - 1 - (deriveTotals job0 table).dataCursor) ∧
    (processV2 table fs job0 =
        ((partLoop table fs (deriveTotals job0 table) MAX_WRITE_ROWS_PER_RUN).1, none) ↔
      (partLoop table fs (deriveTotals job0 table) MAX_WRITE_ROWS_PER_RUN).2.dataCursor =
        (deriveTotals job0 table).totalRows - 1) ∧
    ((partLoop table fs (deriveTotals job0 table) MAX_WRITE_ROWS_PER_RUN).2.dataCursor <
        (deriveTotals job0 table).totalRows - 1 →
      processV2 table fs job0 =
        ((partLoop table fs (deriveTotals job0 table) MAX_WRITE_ROWS_PER_RUN).1,
         some (partLoop table fs (deriveTotals job0 table) MAX_WRITE_ROWS_PER_RUN).2)) ∧
    (partLoop table fs (deriveTotals job0 table) MAX_WRITE_ROWS_PER_RUN).2.totalRows =
      (deriveTotals job0 table).totalRows ∧
    (partLoop table fs (deriveTotals job0 table) MAX_WRITE_ROWS_PER_RUN).2.totalCols =
      (deriveTotals job0 table).totalCols ∧
    (job0.totalRows ≠ 0 ∧ job0.totalCols ≠ 0 → deriveTotals job0 table = job0) ∧
    ((job0.totalRows = 0 ∨ job0.totalCols = 0) →
      (deriveTotals job0 table).totalRows = table.length ∧
      (deriveTotals job0 table).totalCols = (table.headD []).length) := by
  obtain ⟨ht1, ht2, hc⟩ := partLoop_spec table MAX_WRITE_ROWS_PER_RUN fs (deriveTotals job0 table)
  have hub : (partLoop table fs (deriveTotals job0 table) MAX_WRITE_ROWS_PER_RUN).2.dataCursor ≤
      (deriveTotals job0 table).totalRows - 1 := by
    rw [hc]
    omega
  refine ⟨hc, ?_, ?_, ht1, ht2, ?_, ?_⟩
  · unfold processV2
    constructor
    · intro heq
      by_cases hdone : (deriveTotals job0 table).totalRows - 1 ≤
          (partLoop table fs (deriveTotals job0 table) MAX_WRITE_ROWS_PER_RUN).2.dataCursor
      · omega
      · rw [if_neg hdone] at heq
        simp at heq
    · intro heq
      rw [if_pos (by omega)]
  · intro hlt
    unfold processV2
    rw [if_neg (by omega)]
  · intro hset
    unfold deriveTotals
    rw [if_neg (by omega)]
  · intro hunset
    unfold deriveTotals
    rw [if_pos hunset]
    exact ⟨rfl, rfl⟩

/-- C5 witness: a fresh job over a 3-row table (2 data rows) completes in
one invocation with the cursor advanced by exactly `min 300000 2 = 2`. -/
theorem c5_resumable_invocation_witness :
    (deriveTotals ⟨"f", "b", 0, 0, 0, 1⟩ [["h", "h"], ["a", "b"], ["c", "d"]]).dataCursor <
      (deriveTotals ⟨"f", "b", 0, 0, 0, 1⟩ [["h", "h"], ["a", "b"], ["c", "d"]]).totalRows - 1 ∧
    (partLoop [["h", "h"], ["a", "b"], ["c", "d"]] []
        (deriveTotals ⟨"f", "b", 0, 0, 0, 1⟩ [["h", "h"], ["a", "b"], ["c", "d"]])
        MAX_WRITE_ROWS_PER_RUN).2.dataCursor =
      (deriveTotals ⟨"f", "b", 0, 0, 0, 1⟩ [["h", "h"], ["a", "b"], ["c", "d"]]).dataCursor +
        min MAX_WRITE_ROWS_PER_RUN
          ((deriveTotals ⟨"f", "b", 0, 0, 0, 1⟩
              [["h", "h"], ["a", "b"], ["c", "d"]]).totalRows - 1 -
            (deriveTotals ⟨"f", "b", 0, 0, 0, 1⟩
              [["h", "h"], ["a", "b"], ["c", "d"]]).dataCursor) :=
  ⟨by decide,
   (c5_resumable_invocation [["h", "h"], ["a", "b"], ["c", "d"]] [] ⟨"f", "b", 0, 0, 0, 1⟩
     (by decide)).1⟩

/-- Modelled from the spec: the claimed next part size, whose sink-capacity
cap is written `floor (maxCells / columnCount) - 1` with no lower clamp.
Stated over the integers so that the subtraction is the spec's arithmetic
subtraction. -/
def specNextPartSize (dataLeft remaining cols : Nat) : Int :=
  min (min (min (dataLeft : Int) (remaining : Int)) 100000)
    (((SHEET_CELL_LIMIT / cols : Nat) : Int) - 1)

/-- C6 counterexample: with 6,000,000 columns the code's clamped cap picks
1 row for the next part while the claimed minimum is 0. -/
theorem c6_cellcap_counterexample :
    (v2Body [["h"], ["r"]] [] ⟨"f", "b", 2, 6000000, 0, 1⟩ MAX_WRITE_ROWS_PER_RUN).2.1.dataCursor
      = 1 ∧
    specNextPartSize (2 - 1 - 0) MAX_WRITE_ROWS_PER_RUN 6000000 = 0 ∧
    (1 : Int) ≠ specNextPartSize (2 - 1 - 0) MAX_WRITE_ROWS_PER_RUN 6000000 := by
  refine ⟨by decide, by decide, by decide⟩

/-- C6 amended: on every iteration of the part loop the cursor advances by
the minimum of data rows left, the remaining invocation budget, the policy
chunk size, and the clamped sink-capacity cap
`max 1 (floor (SHEET_CELL_LIMIT / columnCount) - 1)`. -/
theorem c6_next_part_size (table : List (List String)) (fs : Files) (job : JobV2)
    (remaining : Nat) :
    (v2Body table fs job remaining).2.1.dataCursor =
      job.dataCursor +
        min (min (min (job.totalRows - 1 - job.dataCursor) remaining) AUTO_SPLIT_CHUNK_ROWS)
          (max 1 (SHEET_CELL_LIMIT / job.totalCols - 1)) ∧
    (v2Body table fs job remaining).2.1.partIndex = job.partIndex + 1 := by
  obtain ⟨hj, _⟩ := v2Body_char table fs job remaining
  rw [hj]
  exact ⟨rfl, rfl⟩

/-- C4: with the part's XLSX already present, the loop body advances cursor
and part index exactly as a write would (by the four-way minimum) while
leaving the folder untouched, and running the body again from the same job
state gives the identical result. -/
theorem c4_idempotent_skip (table : List (List String)) (fs : Files) (job : JobV2)
    (remaining : Nat)
    (hex : hasFile fs (partName job.outputBase job.partIndex) = true) :
    (v2Body table fs job remaining).1 = fs ∧
    (v2Body table fs job remaining).2.1.dataCursor = job.dataCursor + partRows job remaining ∧
    (v2Body table fs job remaining).2.1.partIndex = job.partIndex + 1 ∧
    v2Body table (v2Body table fs job remaining).1 job remaining =
      v2Body table fs job remaining := by
  have hfs : (v2Body table fs job remaining).1 = fs := by
    unfold v2Body
    simp [hex]
  obtain ⟨hj, _⟩ := v2Body_char table fs job remaining
  refine ⟨hfs, by rw [hj], by rw [hj], by rw [hfs]⟩

/-- C4 witness: a concrete folder already holding `b.parced__part01.xlsx`. -/
theorem c4_idempotent_skip_witness :
    hasFile [("b__part01.xlsx", ([] : List (List String)))] (partName "b" 1) = true ∧
    (v2Body [["h", "h"], ["a", "b"], ["c", "d"]]
        [("b__part01.xlsx", ([] : List (List String)))] ⟨"f", "b", 3, 2, 0, 1⟩ 300000).1 =
      [("b__part01.xlsx", ([] : List (List String)))] :=
  ⟨by decide,
   (c4_idempotent_skip [["h", "h"], ["a", "b"], ["c", "d"]]
     [("b__part01.xlsx", ([] : List (List String)))] ⟨"f", "b", 3, 2, 0, 1⟩ 300000
     (by decide)).1⟩

/-- C10: a watchdog firing schedules a 1-minute `resume_all_v2_safe`
trigger and logs the repair exactly when the persisted queue still has
unfinished entries and no resume trigger is pending; in every other case it
logs the ok heartbeat and schedules nothing. -/
theorem c10_watchdog_rearm (queue : Option WQueue) (hasResume : Bool) :
    ((∃ q, queue = some q ∧ q.idx < q.items.length) ∧ hasResume = false →
      watchdog_v2 queue hasResume =
        ⟨some (1, "resume_all_v2_safe"), "watchdog_rescheduled"⟩) ∧
    (¬ ((∃ q, queue = some q ∧ q.idx < q.items.length) ∧ hasResume = false) →
      (watchdog_v2 queue hasResume).scheduled = none ∧
      (watchdog_v2 queue hasResume).phase = "watchdog_ok") := by
  constructor
  · rintro ⟨⟨q, rfl, hq⟩, hr⟩
    have hq' : ¬ q.items.length ≤ q.idx := by omega
    simp [watchdog_v2, hq', hr]
  · intro hn
    match queue with
    | none => exact ⟨rfl, rfl⟩
    | some q =>
      by_cases hq : q.items.length ≤ q.idx
      · simp [watchdog_v2, hq]
      · have hr : ¬ hasResume = false := fun hfalse => hn ⟨⟨q, rfl, by omega⟩, hfalse⟩
        simp [watchdog_v2, hq, hr]

/-- C10 witness: both branches at concrete queues. -/
theorem c10_watchdog_rearm_witness :
    watchdog_v2 (some ⟨0, ["f1"]⟩) false =
      ⟨some (1, "resume_all_v2_safe"), "watchdog_rescheduled"⟩ ∧
    (watchdog_v2 (some ⟨1, ["f1"]⟩) false).scheduled = none ∧
    (watchdog_v2 (some ⟨1, ["f1"]⟩) false).phase = "watchdog_ok" :=
  ⟨(c10_watchdog_rearm (some ⟨0, ["f1"]⟩) false).1 ⟨⟨⟨0, ["f1"]⟩, rfl, by decide⟩, rfl⟩,
   (c10_watchdog_rearm (some ⟨1, ["f1"]⟩) false).2 (by
      rintro ⟨⟨q, hq, hlt⟩, _⟩
      cases hq
      simp at hlt)⟩

/-- `localeCmp` is nonpositive exactly for ordered names. -/
theorem localeCmp_nonpos {x y : String} : localeCmp x y ≤ 0 ↔ x ≤ y := by
  rcases lt_trichotomy x y with h | h | h
  · simp [localeCmp, h, le_of_lt h]
  · subst h
    simp [localeCmp]
  · have h1 : ¬ x < y := not_lt_of_gt h
    have h2 : ¬ x = y := ne_of_gt h
    simp [localeCmp, h1, h2, not_le.mpr h]

/-- `localeCmp` is negative exactly for strictly ordered names. -/
theorem localeCmp_neg {x y : String} : localeCmp x y < 0 ↔ x < y := by
  rcases lt_trichotomy x y with h | h | h
  · simp [localeCmp, h]
  · subst h
    simp [localeCmp]
  · have h1 : ¬ x < y := not_lt_of_gt h
    have h2 : ¬ x = y := ne_of_gt h
    simp [localeCmp, h1, h2, not_lt.mpr (le_of_lt h)]

/-- Nonpositive comparator between two resolved tags: newer-or-equal lex
order on (year, month), then descending name. -/
theorem cmpV2_nonpos_iff (a b : QItem) (p1 p2 q1 q2 : Nat)
    (ha : a.ym = some (p1, p2)) (hb : b.ym = some (q1, q2)) :
    cmpV2 a b ≤ 0 ↔
      (q1 < p1 ∨ (p1 = q1 ∧ q2 < p2) ∨ (p1 = q1 ∧ p2 = q2 ∧ b.name ≤ a.name)) := by
  by_cases h1 : p1 = q1
  · subst h1
    by_cases h2 : p2 = q2
    · subst h2
      simp [cmpV2, ha, hb, localeCmp_nonpos]
    · simp only [cmpV2, ha, hb]
      simp [h2]
      try omega
  · simp only [cmpV2, ha, hb]
    simp [h1]
    try omega

/-- Negative comparator between two resolved tags: strictly newer lex order
on (year, month), then strictly descending name. -/
theorem cmpV2_neg_iff (a b : QItem) (p1 p2 q1 q2 : Nat)
    (ha : a.ym = some (p1, p2)) (hb : b.ym = some (q1, q2)) :
    cmpV2 a b < 0 ↔
      (q1 < p1 ∨ (p1 = q1 ∧ q2 < p2) ∨ (p1 = q1 ∧ p2 = q2 ∧ b.name < a.name)) := by
  by_cases h1 : p1 = q1
  · subst h1
    by_cases h2 : p2 = q2
    · subst h2
      simp [cmpV2, ha, hb, localeCmp_neg]
    · simp only [cmpV2, ha, hb]
      simp [h2]
      try omega
  · simp only [cmpV2, ha, hb]
    simp [h1]
    try omega

/-- A resolved tag always compares strictly before an unresolved one. -/
theorem cmpV2_some_none (a b : QItem) (p : Nat × Nat)
    (ha : a.ym = some p) (hb : b.ym = none) : cmpV2 a b = -1 ∧ cmpV2 b a = 1 := by
  constructor <;> simp [cmpV2, ha, hb]

/-- The comparator order is transitive. -/
theorem cmpV2_le_trans (a b c : QItem) (hab : cmpV2 a b ≤ 0) (hbc : cmpV2 b c ≤ 0) :
    cmpV2 a c ≤ 0 := by
  cases ha : a.ym with
  | none =>
    cases hb : b.ym with
    | some q =>
      rw [show cmpV2 a b = 1 by simp [cmpV2, ha, hb]] at hab
      omega
    | none =>
      cases hc : c.ym with
      | some r =>
        rw [show cmpV2 b c = 1 by simp [cmpV2, hb, hc]] at hbc
        omega
      | none =>
        rw [show cmpV2 a b = localeCmp b.name a.name by simp [cmpV2, ha, hb]] at hab
        rw [show cmpV2 b c = localeCmp c.name b.name by simp [cmpV2, hb, hc]] at hbc
        rw [show cmpV2 a c = localeCmp c.name a.name by simp [cmpV2, ha, hc]]
        exact localeCmp_nonpos.mpr
          (le_trans (localeCmp_nonpos.mp hbc) (localeCmp_nonpos.mp hab))
  | some p =>
    obtain ⟨p1, p2⟩ := p
    cases hc : c.ym with
    | none => simp [cmpV2, ha, hc]
    | some r =>
      obtain ⟨r1, r2⟩ := r
      cases hb : b.ym with
      | none =>
        rw [show cmpV2 b c = 1 by simp [cmpV2, hb, hc]] at hbc
        omega
      | some q =>
        obtain ⟨q1, q2⟩ := q
        have hA := (cmpV2_nonpos_iff a b p1 p2 q1 q2 ha hb).mp hab
        have hB := (cmpV2_nonpos_iff b c q1 q2 r1 r2 hb hc).mp hbc
        refine (cmpV2_nonpos_iff a c p1 p2 r1 r2 ha hc).mpr ?_
        rcases hA with hA | ⟨hA1, hA2⟩ | ⟨hA1, hA2, hA3⟩ <;>
          rcases hB with hB | ⟨hB1, hB2⟩ | ⟨hB1, hB2, hB3⟩ <;>
          first
            | exact Or.inl (by omega)
            | exact Or.inr (Or.inl ⟨by omega, by omega⟩)
            | exact Or.inr (Or.inr ⟨by omega, by omega, le_trans hB3 hA3⟩)

/-- The comparator order is total. -/
theorem cmpV2_le_total (a b : QItem) : cmpV2 a b ≤ 0 ∨ cmpV2 b a ≤ 0 := by
  cases ha : a.ym with
  | none =>
    cases hb : b.ym with
    | some q => exact Or.inr (by simp [cmpV2, ha, hb])
    | none =>
      rw [show cmpV2 a b = localeCmp b.name a.name by simp [cmpV2, ha, hb]]
      rw [show cmpV2 b a = localeCmp a.name b.name by simp [cmpV2, ha, hb]]
      rcases le_total b.name a.name with h | h
      · exact Or.inl (localeCmp_nonpos.mpr h)
      · exact Or.inr (localeCmp_nonpos.mpr h)
  | some p =>
    obtain ⟨p1, p2⟩ := p
    cases hb : b.ym with
    | none => exact Or.inl (by simp [cmpV2, ha, hb])
    | some q =>
      obtain ⟨q1, q2⟩ := q
      rcases Nat.lt_trichotomy p1 q1 with h1 | h1 | h1
      · exact Or.inr ((cmpV2_nonpos_iff b a q1 q2 p1 p2 hb ha).mpr (Or.inl h1))
      · rcases Nat.lt_trichotomy p2 q2 with h2 | h2 | h2
        · exact Or.inr
            ((cmpV2_nonpos_iff b a q1 q2 p1 p2 hb ha).mpr (Or.inr (Or.inl ⟨h1.symm, h2⟩)))
        · rcases le_total b.name a.name with h3 | h3
          · exact Or.inl
              ((cmpV2_nonpos_iff a b p1 p2 q1 q2 ha hb).mpr (Or.inr (Or.inr ⟨h1, h2, h3⟩)))
          · exact Or.inr ((cmpV2_nonpos_iff b a q1 q2 p1 p2 hb ha).mpr
              (Or.inr (Or.inr ⟨h1.symm, h2.symm, h3⟩)))
        · exact Or.inl
            ((cmpV2_nonpos_iff a b p1 p2 q1 q2 ha hb).mpr (Or.inr (Or.inl ⟨h1, h2⟩)))
      · exact Or.inl ((cmpV2_nonpos_iff a b p1 p2 q1 q2 ha hb).mpr (Or.inl h1))

instance : IsTrans QItem queueLE := ⟨cmpV2_le_trans⟩

instance : IsTotal QItem queueLE := ⟨cmpV2_le_total⟩

/-- C7: the v2 file queue is ordered newest-first.  Between two resolved
tags the comparator puts the greater year first, then the greater month,
ties broken by descending filename; a resolved tag strictly precedes an
unresolved one; the built queue is sorted under the comparator order; and
concretely the files tagged 2023-11 and 2024-01 and an untagged file are
queued as 2024-01, 2023-11, untagged. -/
theorem c7_queue_newest_first :
    (∀ (a b : QItem) (p1 p2 q1 q2 : Nat),
      a.ym = some (p1, p2) → b.ym = some (q1, q2) →
      (cmpV2 a b < 0 ↔
        (q1 < p1 ∨ (p1 = q1 ∧ q2 < p2) ∨ (p1 = q1 ∧ p2 = q2 ∧ b.name < a.name)))) ∧
    (∀ (a b : QItem) (p : Nat × Nat), a.ym = some p → b.ym = none →
      cmpV2 a b = -1 ∧ cmpV2 b a = 1) ∧
    (∀ names : List String, (buildQueueV2 names).Sorted queueLE) ∧
    buildQueueV2 ["2023-11.csv", "notes.csv", "2024-01.csv"] =
      [⟨"2024-01.csv", some (2024, 1)⟩, ⟨"2023-11.csv", some (2023, 11)⟩,
       ⟨"notes.csv", none⟩] := by
  refine ⟨fun a b p1 p2 q1 q2 ha hb => cmpV2_neg_iff a b p1 p2 q1 q2 ha hb,
    fun a b p ha hb => cmpV2_some_none a b p ha hb, ?_, by decide⟩
  intro names
  unfold buildQueueV2
  exact List.sorted_insertionSort queueLE _

/-- C7 witness: the 2024-01 file compares strictly before the 2023-11
file, which compares strictly before the untagged file. -/
theorem c7_queue_newest_first_witness :
    cmpV2 ⟨"2024-01.csv", some (2024, 1)⟩ ⟨"2023-11.csv", some (2023, 11)⟩ < 0 ∧
    cmpV2 ⟨"2023-11.csv", some (2023, 11)⟩ ⟨"notes.csv", none⟩ = -1 :=
  ⟨(c7_queue_newest_first.1 ⟨"2024-01.csv", some (2024, 1)⟩
      ⟨"2023-11.csv", some (2023, 11)⟩ 2024 1 2023 11 rfl rfl).mpr
    (Or.inl (by decide)),
   (c7_queue_newest_first.2.1 ⟨"2023-11.csv", some (2023, 11)⟩ ⟨"notes.csv", none⟩
      (2023, 11) rfl rfl).1⟩

end Parcing
